/-
  Verification of the Vettoo dashboard core (modules/filters.py, modules/ui.py)
  against its specification.

  The record table is modelled as a list of rows.  Each row carries the three
  identifier columns (`Latest Qualification`, `Training Packages`, `TDV`) and
  the numeric period columns as a list of cells.  A cell is `Option Nat`:
  `none` models a NaN/missing value, `some n` a raw integer count (the data
  holds nonnegative integer counts).
-/
import Mathlib

namespace Vettoo

/-- A row of the record table: `Latest Qualification`, `Training Packages`,
`TDV`, and the numeric period-column cells in table order. -/
structure Row where
  qual : String
  tp : String
  tdv : String
  vals : List (Option Nat)
deriving DecidableEq

/-! ### String ordering

Python's `sorted` on strings compares lexicographically by code point.
`strLe` is that order, computed on the character list of the string. -/

/-- Lexicographic comparison of character lists by code point, as Python
compares strings. -/
def charListLe : List Char → List Char → Bool
  | [], _ => true
  | _ :: _, [] => false
  | a :: as, b :: bs =>
    if a.toNat < b.toNat then true
    else if b.toNat < a.toNat then false
    else charListLe as bs

/-- Python's string order (code-point lexicographic). -/
def strLe (a b : String) : Bool := charListLe a.data b.data

/-- `strLe` as a relation, the order `sorted` sorts by. -/
def strLeP (a b : String) : Prop := strLe a b = true

instance : DecidableRel strLeP := fun a b => inferInstanceAs (Decidable (strLe a b = true))

theorem charListLe_total : ∀ as bs : List Char, charListLe as bs = true ∨ charListLe bs as = true
  | [], _ => Or.inl rfl
  | _ :: _, [] => Or.inr rfl
  | a :: as, b :: bs => by
    rcases Nat.lt_trichotomy a.toNat b.toNat with h | h | h
    · exact Or.inl (by simp [charListLe, h])
    · have := charListLe_total as bs
      rcases this with h2 | h2
      · exact Or.inl (by simp [charListLe, h, h2])
      · exact Or.inr (by simp [charListLe, h, h2])
    · exact Or.inr (by simp [charListLe, h])

theorem charListLe_trans : ∀ as bs cs : List Char,
    charListLe as bs = true → charListLe bs cs = true → charListLe as cs = true
  | [], _, _ => fun _ _ => rfl
  | a :: as, [], _ => fun h _ => by simp [charListLe] at h
  | _ :: _, _ :: _, [] => fun _ h => by simp [charListLe] at h
  | a :: as, b :: bs, c :: cs => fun h1 h2 => by
    simp only [charListLe] at h1 h2 ⊢
    split_ifs at h1 h2 ⊢ <;>
      first
        | rfl
        | omega
        | exact absurd h1 Bool.false_ne_true
        | exact absurd h2 Bool.false_ne_true
        | exact charListLe_trans as bs cs h1 h2

instance : IsTotal String strLeP := ⟨fun a b => charListLe_total a.data b.data⟩

instance : IsTrans String strLeP := ⟨fun a b c => charListLe_trans a.data b.data c.data⟩

/-- `sorted` from Python, over our string order.  Insertion sort is stable and
ascending, like Python's sort. -/
def sortStrings (l : List String) : List String := List.insertionSort strLeP l

/-! ### filters.py -/

/-- `filter_by_tp(df, tps)`: if `tps` is empty return `df` unchanged, else the
rows whose `Training Packages` value is in `tps` (pandas `isin`). -/
def filter_by_tp (df : List Row) (tps : List String) : List Row :=
  if tps.isEmpty then df else df.filter (fun r => decide (r.tp ∈ tps))

/-- `filter_by_qual(df, quals)`: if `quals` is empty return `df` unchanged,
else the rows whose `Latest Qualification` value is in `quals`. -/
def filter_by_qual (df : List Row) (quals : List String) : List Row :=
  if quals.isEmpty then df else df.filter (fun r => decide (r.qual ∈ quals))

/-- `available_quals(df, selected_tps)`: the sorted distinct qualification
names, over the whole table when `selected_tps` is empty, else over the rows
whose package is selected.  pandas `unique` keeps first occurrences while
`List.dedup` keeps last ones; sorting makes the two results identical. -/
def available_quals (df : List Row) (selected_tps : List String) : List String :=
  if selected_tps.isEmpty then
    sortStrings (df.map (fun r => r.qual)).dedup
  else
    sortStrings (((df.filter (fun r => decide (r.tp ∈ selected_tps))).map (fun r => r.qual)).dedup)

/-! ### Claim C5: the filter contracts -/

/-- C5. `filter_by_tp` is the identity on the empty selection, and for a
non-empty selection returns exactly the rows whose `Training Packages` value
is selected: membership of every returned row and row count equal to the
count of matching rows; `filter_by_qual` satisfies the same contract keyed on
`Latest Qualification`. -/
theorem claim_C5_filter_contracts (df : List Row) (tps quals : List String) :
    filter_by_tp df [] = df
    ∧ filter_by_qual df [] = df
    ∧ (tps ≠ [] →
        (∀ r ∈ filter_by_tp df tps, r.tp ∈ tps)
        ∧ filter_by_tp df tps = df.filter (fun r => decide (r.tp ∈ tps))
        ∧ (filter_by_tp df tps).length = df.countP (fun r => decide (r.tp ∈ tps)))
    ∧ (quals ≠ [] →
        (∀ r ∈ filter_by_qual df quals, r.qual ∈ quals)
        ∧ filter_by_qual df quals = df.filter (fun r => decide (r.qual ∈ quals))
        ∧ (filter_by_qual df quals).length = df.countP (fun r => decide (r.qual ∈ quals))) := by
  refine ⟨rfl, rfl, fun htps => ?_, fun hquals => ?_⟩
  · cases tps with
    | nil => exact absurd rfl htps
    | cons a l =>
      refine ⟨fun r hr => ?_, ?_, ?_⟩
      · simp only [filter_by_tp, List.isEmpty_cons, Bool.false_eq_true, if_false,
          List.mem_filter, decide_eq_true_iff] at hr
        exact hr.2
      · simp [filter_by_tp]
      · simp [filter_by_tp, List.countP_eq_length_filter]
  · cases quals with
    | nil => exact absurd rfl hquals
    | cons a l =>
      refine ⟨fun r hr => ?_, ?_, ?_⟩
      · simp only [filter_by_qual, List.isEmpty_cons, Bool.false_eq_true, if_false,
          List.mem_filter, decide_eq_true_iff] at hr
        exact hr.2
      · simp [filter_by_qual]
      · simp [filter_by_qual, List.countP_eq_length_filter]

/-- Example table for the C5 witness. -/
def c5rows : List Row :=
  [⟨"Cert II", "A", "t1", [some 3]⟩, ⟨"Cert III", "B", "t2", [some 4]⟩]

/-- Witness for C5 at a concrete table and non-empty selections. -/
theorem claim_C5_filter_contracts_witness :
    filter_by_tp c5rows [] = c5rows
    ∧ (∀ r ∈ filter_by_tp c5rows ["A"], r.tp ∈ ["A"])
    ∧ (filter_by_tp c5rows ["A"]).length = 1
    ∧ (∀ r ∈ filter_by_qual c5rows ["Cert III"], r.qual ∈ ["Cert III"])
    ∧ (filter_by_qual c5rows ["Cert III"]).length = 1 := by
  obtain ⟨h1, -, h3, h4⟩ :=
    claim_C5_filter_contracts c5rows ["A"] ["Cert III"]
  obtain ⟨h3a, -, h3c⟩ := h3 (by decide)
  obtain ⟨h4a, -, h4c⟩ := h4 (by decide)
  refine ⟨h1, h3a, ?_, h4a, ?_⟩
  · rw [h3c]; decide
  · rw [h4c]; decide

/-! ### Claim C10: the two row filters commute -/

/-- C10. Filtering by packages and filtering by qualifications commute, for
every table and every pair of selections (empty or not). -/
theorem claim_C10_filters_commute (df : List Row) (tps quals : List String) :
    filter_by_qual (filter_by_tp df tps) quals
      = filter_by_tp (filter_by_qual df quals) tps := by
  cases tps with
  | nil => cases quals <;> simp [filter_by_tp, filter_by_qual]
  | cons a l =>
    cases quals with
    | nil => simp [filter_by_tp, filter_by_qual]
    | cons b m =>
      simp only [filter_by_tp, filter_by_qual, List.isEmpty_cons, Bool.false_eq_true,
        if_false, List.filter_filter]
      refine List.filter_congr fun r _ => ?_
      exact Bool.and_comm _ _

/-! ### Rounding and redaction (ui.py display tables)

ui.py computes `rounded = (raw / 5).round() * 5` and then
`rounded.where((rounded != 0) | (raw == 0), "-")`: cells keep the rounded
value unless it is 0 while the raw value was non-zero, in which case a dash
is shown.  For an integer raw value, `raw / 5` is never exactly halfway
between two integers (its fractional part is a multiple of 0.2), so pandas'
round-half-to-even agrees with round-half-up; `round5` below computes that
common value: the multiple of 5 nearest to `raw`. -/

/-- A displayed numeric cell: either a rounded number or the redaction dash. -/
inductive Cell where
  | num (n : Nat)
  | dash
deriving DecidableEq

/-- `(raw / 5).round() * 5` for a nonnegative integer cell. -/
def round5 (raw : Nat) : Nat := 5 * ((2 * raw + 5) / 10)

/-- One cell of `rounded.where((rounded != 0) | (raw == 0), "-")`. -/
def displayCell (raw : Nat) : Cell :=
  if round5 raw ≠ 0 ∨ raw = 0 then Cell.num (round5 raw) else Cell.dash

/-- Display of a possibly-missing cell: a NaN cell stays NaN under the
pandas mask (`NaN != 0` is elementwise true, so NaN cells are kept). -/
def displayOptCell (c : Option Nat) : Option Cell := c.map displayCell

/-- The display transform applied across the numeric cells of one row. -/
def roundAndRedact (vs : List (Option Nat)) : List (Option Cell) :=
  vs.map displayOptCell

/-- C1. `round5 raw` is a multiple of 5 nearest to `raw`; the cell is
displayed as that multiple, except that a non-zero raw value rounding to 0
is displayed as the dash, while a true zero is displayed as the number 0;
raw 2 gives the dash and raw 13 gives 15; across a row the transform acts
cellwise. -/
theorem claim_C1_round_redact (raw : Nat) :
    round5 raw % 5 = 0
    ∧ (∀ m : Nat, m % 5 = 0 →
        (raw - round5 raw) + (round5 raw - raw) ≤ (raw - m) + (m - raw))
    ∧ displayCell raw = (if round5 raw = 0 ∧ raw ≠ 0 then Cell.dash else Cell.num (round5 raw))
    ∧ displayCell 0 = Cell.num 0
    ∧ displayCell 2 = Cell.dash
    ∧ displayCell 13 = Cell.num 15
    ∧ (∀ (vs : List (Option Nat)) (i : Nat),
        (roundAndRedact vs)[i]? = Option.map displayOptCell vs[i]?) := by
  refine ⟨?_, ?_, ?_, by decide, by decide, by decide, ?_⟩
  · simp only [round5]; omega
  · intro m hm; simp only [round5]; omega
  · simp only [displayCell]
    split_ifs <;> first | rfl | tauto
  · intro vs i
    exact List.getElem?_map displayOptCell vs i

/-- Witness for C1: the nearest-multiple bound and the displayed value at
raw 13 against the competing multiple 10. -/
theorem claim_C1_round_redact_witness :
    (10 : Nat) % 5 = 0
    ∧ (13 - round5 13) + (round5 13 - 13) ≤ (13 - 10) + (10 - 13)
    ∧ displayCell 13 = Cell.num 15 := by
  have h := claim_C1_round_redact 13
  exact ⟨by decide, h.2.1 10 (by decide), h.2.2.2.2.2.1⟩

/-! ### Sums and the totals row (ui.py detailed path)

`totals = sub[numeric_cols].sum()` sums each period column over the raw
values of the filtered view (pandas skips NaN, i.e. treats missing as 0),
and the totals row is appended to the raw table before the display
rounding is applied. -/

/-- The cell of row `r` in period column `j` (missing when out of range). -/
def rowCell (r : Row) (j : Nat) : Option Nat := r.vals.getD j none

/-- Numeric value of a cell for summation: NaN/missing counts as 0. -/
def cellNum (c : Option Nat) : Nat := c.getD 0

/-- `sub[col].sum()`: the raw sum of period column `j` over the view. -/
def colSum (rows : List Row) (j : Nat) : Nat :=
  (rows.map (fun r => cellNum (rowCell r j))).sum

/-- The synthetic grand-total row of the detailed path.  The source row dict
holds only `Latest Qualification` and the period sums; the `TDV` and
`Training Packages` columns come out missing in the concat and are modelled
by the empty string (no claim concerns them). -/
def computeTotalsRow (rows : List Row) (ncols : Nat) : Row :=
  { qual := "Total of selected items", tp := "", tdv := "",
    vals := (List.range ncols).map (fun j => some (colSum rows j)) }

/-- `pd.concat([sub, totals_row])`: the displayed detailed table before
rounding is the raw view plus the totals row. -/
def detailedTable (rows : List Row) (ncols : Nat) : List Row :=
  rows ++ [computeTotalsRow rows ncols]

/-- C2. Each totals-row cell is the raw sum of its column over all rows of
the view, computed before any rounding; the display transform is then
applied once to that raw sum; appending the totals row leaves the raw rows
of the view unchanged. -/
theorem claim_C2_totals_row (rows : List Row) (ncols j : Nat) (hj : j < ncols) :
    (computeTotalsRow rows ncols).vals[j]?
        = some (some ((rows.map (fun r => cellNum (rowCell r j))).sum))
    ∧ (roundAndRedact (computeTotalsRow rows ncols).vals)[j]?
        = some (some (displayCell ((rows.map (fun r => cellNum (rowCell r j))).sum)))
    ∧ (detailedTable rows ncols).take rows.length = rows
    ∧ (detailedTable rows ncols).length = rows.length + 1 := by
  have hv : (computeTotalsRow rows ncols).vals[j]? = some (some (colSum rows j)) := by
    simp [computeTotalsRow, List.getElem?_map, List.getElem?_range hj]
  refine ⟨hv, ?_, ?_, ?_⟩
  · rw [roundAndRedact, List.getElem?_map, hv]
    rfl
  · simp [detailedTable, List.take_left]
  · simp [detailedTable]

/-- The view of the C2 witness: four records whose single period column
holds the raw values 10, 20, 5 and 0. -/
def c2rows : List Row :=
  [⟨"q1", "A", "t", [some 10]⟩, ⟨"q2", "A", "t", [some 20]⟩,
   ⟨"q3", "B", "t", [some 5]⟩, ⟨"q4", "B", "t", [some 0]⟩]

/-- Witness for C2: over raw period values 10, 20, 5, 0 the totals row
holds the raw sum 35, and 35 is displayed as 35. -/
theorem claim_C2_totals_row_witness :
    (computeTotalsRow c2rows 1).vals[0]? = some (some 35)
    ∧ (roundAndRedact (computeTotalsRow c2rows 1).vals)[0]?
        = some (some (Cell.num 35)) := by
  obtain ⟨h1, h2, -, -⟩ := claim_C2_totals_row c2rows 1 0 (by decide)
  have hs : (c2rows.map (fun r => cellNum (rowCell r 0))).sum = 35 := by decide
  rw [hs] at h1 h2
  have hd : displayCell 35 = Cell.num 35 := by decide
  rw [hd] at h2
  exact ⟨h1, h2⟩

/-! ### The run_app filtering pipeline and aggregation

run_app filters `sub = df.copy()` by `filter_by_tp` when packages are
selected and by `filter_by_qual` only when the aggregate flag is off
(`if not aggregate and quals`), then in aggregate mode computes
`sub.groupby("Training Packages")[numeric_cols].sum().reset_index()`:
group keys sorted (pandas default `sort=True`), one output row per distinct
package, each period column summed with NaN skipped (treated as 0). -/

/-- The filtered view produced by run_app before plotting: the package
filter, then the qualification filter only when the aggregate flag is off. -/
def filteredView (df : List Row) (tps quals : List String) (aggregate : Bool) : List Row :=
  let sub := if tps.isEmpty then df else filter_by_tp df tps
  if !aggregate && !quals.isEmpty then filter_by_qual sub quals else sub

/-- `sub.groupby("Training Packages")[numeric_cols].sum().reset_index()`:
one row per distinct package, keys sorted, period columns summed per group. -/
def aggregateByPackage (rows : List Row) (ncols : Nat) : List (String × List Nat) :=
  (sortStrings (rows.map (fun r => r.tp)).dedup).map (fun p =>
    (p, (List.range ncols).map (fun j => colSum (rows.filter (fun r => decide (r.tp = p))) j)))

/-- `melt`: the long-form chart series, one (group key, period, value)
triple per (row, period column) pair. -/
def toChartSeries (rows : List Row) (ncols : Nat) (key : Row → String) :
    List (String × Nat × Option Nat) :=
  (List.range ncols).flatMap (fun j => rows.map (fun r => (key r, j, rowCell r j)))

/-! ### Helper lemmas about sorting and lookup -/

theorem sortStrings_perm (l : List String) : (sortStrings l).Perm l :=
  List.perm_insertionSort strLeP l

theorem sortStrings_sorted (l : List String) : List.Sorted strLeP (sortStrings l) :=
  List.sorted_insertionSort strLeP l

theorem mem_sortStrings {a : String} {l : List String} : a ∈ sortStrings l ↔ a ∈ l :=
  (sortStrings_perm l).mem_iff

theorem sortStrings_dedup_nodup (l : List String) : (sortStrings l.dedup).Nodup :=
  (sortStrings_perm l.dedup).symm.nodup (List.nodup_dedup l)

theorem lookup_map_key {β : Type} (f : String → β) :
    ∀ (l : List String) (p : String), p ∈ l →
      (l.map (fun q => (q, f q))).lookup p = some (f p)
  | [], p, h => absurd h (List.not_mem_nil p)
  | q :: t, p, h => by
    by_cases hpq : p = q
    · subst hpq
      simp [List.lookup]
    · have hbeq : (p == q) = false := beq_eq_false_iff_ne.mpr hpq
      have hmem : p ∈ t := by
        rcases List.mem_cons.mp h with h1 | h1
        · exact absurd h1 hpq
        · exact h1
      simp [List.lookup, hbeq, lookup_map_key f t p hmem]

theorem aggregateByPackage_length (rows : List Row) (ncols : Nat) :
    (aggregateByPackage rows ncols).length
      = (rows.map (fun r => r.tp)).dedup.length := by
  simp [aggregateByPackage, (sortStrings_perm _).length_eq]

theorem aggregateByPackage_lookup (rows : List Row) (ncols : Nat) (p : String)
    (hp : p ∈ rows.map (fun r => r.tp)) :
    (aggregateByPackage rows ncols).lookup p
      = some ((List.range ncols).map (fun j =>
          colSum (rows.filter (fun r => decide (r.tp = p))) j)) := by
  apply lookup_map_key
  exact mem_sortStrings.mpr (List.mem_dedup.mpr hp)

/-! ### Claim C3: what the aggregated view is built from -/

/-- Two records of one package with distinct qualifications, used to
separate the two readings of the aggregated view. -/
def c3rows : List Row :=
  [⟨"q1", "A", "t", [some 10]⟩, ⟨"q2", "A", "t", [some 20]⟩]

/-- C3 fails as stated: with packages `{A}` and qualifications `{q1}`, the
aggregate-mode view run_app builds sums both of A's rows (the qualification
filter is skipped when the aggregate flag is set), while the claim's
"filter by both, then group" reading keeps only the q1 row. -/
theorem claim_C3_counterexample :
    aggregateByPackage (filteredView c3rows ["A"] ["q1"] true) 1
        ≠ aggregateByPackage (filter_by_qual (filter_by_tp c3rows ["A"]) ["q1"]) 1
    ∧ aggregateByPackage (filteredView c3rows ["A"] ["q1"] true) 1 = [("A", [30])]
    ∧ aggregateByPackage (filter_by_qual (filter_by_tp c3rows ["A"]) ["q1"]) 1
        = [("A", [10])] := by
  decide

/-- C3 amended. In aggregate mode the view run_app aggregates is the
package-filtered table only — the qualification selection is not applied —
and the aggregated view groups it by `Training Packages`: one row per
distinct package present after the package filter, each row holding the
per-column sums over that package's rows. -/
theorem claim_C3_aggregated_view (rows : List Row) (tps quals : List String) (ncols : Nat) :
    filteredView rows tps quals true = filter_by_tp rows tps
    ∧ (aggregateByPackage (filteredView rows tps quals true) ncols).length
        = ((filter_by_tp rows tps).map (fun r => r.tp)).dedup.length
    ∧ ∀ p, p ∈ (filter_by_tp rows tps).map (fun r => r.tp) →
        (aggregateByPackage (filteredView rows tps quals true) ncols).lookup p
          = some ((List.range ncols).map (fun j =>
              colSum ((filter_by_tp rows tps).filter (fun r => decide (r.tp = p))) j)) := by
  have hview : filteredView rows tps quals true = filter_by_tp rows tps := by
    cases tps <;> simp [filteredView, filter_by_tp]
  refine ⟨hview, ?_, fun p hp => ?_⟩
  · rw [hview]
    exact aggregateByPackage_length _ _
  · rw [hview]
    exact aggregateByPackage_lookup _ _ p hp

/-- Witness for the amended C3 at the concrete two-row table. -/
theorem claim_C3_aggregated_view_witness :
    filteredView c3rows ["A"] ["q1"] true = filter_by_tp c3rows ["A"]
    ∧ (aggregateByPackage (filteredView c3rows ["A"] ["q1"] true) 1).lookup "A"
        = some [30] := by
  obtain ⟨h1, -, h3⟩ := claim_C3_aggregated_view c3rows ["A"] ["q1"] 1
  have hm : "A" ∈ (filter_by_tp c3rows ["A"]).map (fun r => r.tp) := by decide
  refine ⟨h1, ?_⟩
  rw [h3 "A" hm]
  decide

/-! ### Claim C7: the aggregation contract -/

/-- C7. `aggregateByPackage` produces one row per distinct package of the
view, and the row of each package holds, per period column, the arithmetic
sum of that column over the package's rows with missing cells counted as 0. -/
theorem claim_C7_aggregate (rows : List Row) (ncols : Nat) :
    (aggregateByPackage rows ncols).length = (rows.map (fun r => r.tp)).dedup.length
    ∧ ∀ p, p ∈ rows.map (fun r => r.tp) → ∀ j, j < ncols →
        ∃ out, (aggregateByPackage rows ncols).lookup p = some out
          ∧ out[j]? = some (((rows.filter (fun r => decide (r.tp = p))).map
              (fun r => (r.vals.getD j none).getD 0)).sum) := by
  refine ⟨aggregateByPackage_length rows ncols, fun p hp j hj => ?_⟩
  refine ⟨_, aggregateByPackage_lookup rows ncols p hp, ?_⟩
  rw [List.getElem?_map, List.getElem?_range hj]
  rfl

/-- Witness for C7: on the four-record table, package A's aggregated row
holds 30 = 10 + 20 and the table has one row per distinct package. -/
theorem claim_C7_aggregate_witness :
    (aggregateByPackage c2rows 1).length = 2
    ∧ ∃ out, (aggregateByPackage c2rows 1).lookup "A" = some out
        ∧ out[0]? = some 30 := by
  obtain ⟨h1, h2⟩ := claim_C7_aggregate c2rows 1
  obtain ⟨out, hout, hval⟩ := h2 "A" (by decide) 0 (by decide)
  have hsum : ((c2rows.filter (fun r => decide (r.tp = "A"))).map
      (fun r => (r.vals.getD 0 none).getD 0)).sum = 30 := by decide
  rw [hsum] at hval
  refine ⟨?_, out, hout, hval⟩
  rw [h1]
  decide

/-! ### Claim C9: empty filter results are safe -/

/-- C9 fails as stated for the zero-period-columns case: with the
empty selection the filtered view keeps both records of the table, and
with zero matching period columns the chart series is empty but the
displayed detailed table still holds the two identifier-only rows plus
the totals row — three rows, so neither an empty nor a totals-only
table. -/
theorem claim_C9_counterexample :
    filteredView c5rows [] [] false = c5rows
    ∧ toChartSeries (filteredView c5rows [] [] false) 0 (fun r => r.qual) = []
    ∧ (detailedTable (filteredView c5rows [] [] false) 0).length = 3
    ∧ detailedTable (filteredView c5rows [] [] false) 0 ≠ []
    ∧ (detailedTable (filteredView c5rows [] [] false) 0).length ≠ 1
    ∧ (detailedTable (filteredView c5rows [] [] false) 0).take 2 = c5rows := by
  decide

/-- C9 amended. The pipeline always produces values (all its stages are
total functions, so no input can make it crash).  When the selected
filters leave no rows: the chart series is empty, the detailed display
table is the totals-only row whose totals are all 0, and the aggregated
table is empty.  When the year range leaves no period columns: the chart
series is empty, and the detailed display table is the view's rows plus a
totals row carrying no period cells — one row per record plus the totals
row, not an empty or totals-only table. -/
theorem claim_C9_empty_safe (rows : List Row) (tps quals : List String) (agg : Bool)
    (ncols : Nat) (key : Row → String) :
    (filteredView rows tps quals agg = [] →
        toChartSeries (filteredView rows tps quals agg) ncols key = []
        ∧ detailedTable (filteredView rows tps quals agg) ncols
            = [computeTotalsRow [] ncols]
        ∧ (∀ j, j < ncols → (computeTotalsRow [] ncols).vals[j]? = some (some 0))
        ∧ aggregateByPackage (filteredView rows tps quals agg) ncols = [])
    ∧ toChartSeries rows 0 key = []
    ∧ detailedTable rows 0 = rows ++ [computeTotalsRow rows 0]
    ∧ (detailedTable rows 0).length = rows.length + 1
    ∧ (computeTotalsRow rows 0).vals = [] := by
  refine ⟨fun hempty => ?_, ?_, rfl, ?_, rfl⟩
  · rw [hempty]
    refine ⟨?_, rfl, fun j hj => ?_, rfl⟩
    · simp [toChartSeries]
    · simp [computeTotalsRow, colSum, List.getElem?_replicate, hj]
  · simp [toChartSeries]
  · simp [detailedTable]

/-- Witness for C9: the selection `{Z}` matches no rows of the concrete
table, and the pipeline yields the empty chart and the totals-only table. -/
theorem claim_C9_empty_safe_witness :
    filteredView c5rows ["Z"] [] false = []
    ∧ toChartSeries (filteredView c5rows ["Z"] [] false) 1 (fun r => r.qual) = []
    ∧ detailedTable (filteredView c5rows ["Z"] [] false) 1 = [computeTotalsRow [] 1]
    ∧ aggregateByPackage (filteredView c5rows ["Z"] [] false) 1 = [] := by
  have hempty : filteredView c5rows ["Z"] [] false = [] := by decide
  obtain ⟨h1, -⟩ := claim_C9_empty_safe c5rows ["Z"] [] false 1 (fun r => r.qual)
  obtain ⟨ha, hb, -, hd⟩ := h1 hempty
  exact ⟨hempty, ha, hb, hd⟩

/-! ### Claim C6: the available-qualifications query -/

/-- C6. `available_quals` returns a sorted duplicate-free list: over the
whole table it holds exactly the distinct qualification names of the table,
over a non-empty package selection exactly the qualification names of the
rows whose package is selected, and the latter is always contained in the
former. -/
theorem claim_C6_available_quals (df : List Row) (tps : List String) :
    List.Sorted strLeP (available_quals df tps)
    ∧ (available_quals df tps).Nodup
    ∧ (∀ q, q ∈ available_quals df [] ↔ q ∈ df.map (fun r => r.qual))
    ∧ (tps ≠ [] → ∀ q, q ∈ available_quals df tps ↔
        ∃ r ∈ df, r.tp ∈ tps ∧ r.qual = q)
    ∧ (∀ q, q ∈ available_quals df tps → q ∈ available_quals df []) := by
  refine ⟨?_, ?_, fun q => ?_, fun h q => ?_, fun q hq => ?_⟩
  · unfold available_quals
    split
    · exact sortStrings_sorted _
    · exact sortStrings_sorted _
  · unfold available_quals
    split
    · exact sortStrings_dedup_nodup _
    · exact sortStrings_dedup_nodup _
  · simp [available_quals, mem_sortStrings, List.mem_dedup]
  · cases tps with
    | nil => exact absurd rfl h
    | cons a l =>
      simp only [available_quals, List.isEmpty_cons, Bool.false_eq_true, if_false,
        mem_sortStrings, List.mem_dedup, List.mem_map, List.mem_filter,
        decide_eq_true_iff]
      constructor
      · rintro ⟨r, ⟨hr, htp⟩, hqual⟩
        exact ⟨r, hr, htp, hqual⟩
      · rintro ⟨r, hr, htp, hqual⟩
        exact ⟨r, ⟨hr, htp⟩, hqual⟩
  · cases tps with
    | nil => exact hq
    | cons a l =>
      simp only [available_quals, List.isEmpty_cons, Bool.false_eq_true, if_false,
        List.isEmpty_nil, if_true, mem_sortStrings, List.mem_dedup, List.mem_map,
        List.mem_filter] at hq ⊢
      obtain ⟨r, ⟨hr, -⟩, hqual⟩ := hq
      exact ⟨r, hr, hqual⟩

/-- Witness for C6 on the four-record table with the package selection
`{A}`: q1 is reachable from A, and the selected list is duplicate-free. -/
theorem claim_C6_available_quals_witness :
    "q1" ∈ available_quals c2rows ["A"]
    ∧ (available_quals c2rows ["A"]).Nodup
    ∧ ("q1" : String) ∈ available_quals c2rows [] := by
  obtain ⟨-, hnd, -, h4, h5⟩ := claim_C6_available_quals c2rows ["A"]
  have hmem : "q1" ∈ available_quals c2rows ["A"] :=
    (h4 (by decide) "q1").mpr ⟨⟨"q1", "A", "t", [some 10]⟩, by decide, by decide, rfl⟩
  exact ⟨hmem, hnd, h5 "q1" hmem⟩

/-! ### Claim C8: the label-shortening rule

`shorten_label(c)` in ui.py is `c.split(",", 1)[1].strip() if "," in c
else c`: the substring after the first comma, stripped of surrounding
whitespace, when the name contains a comma; the name unchanged otherwise. -/

/-- Python's `strip()`: drop whitespace from both ends. -/
def stripList (cs : List Char) : List Char :=
  ((cs.dropWhile Char.isWhitespace).reverse.dropWhile Char.isWhitespace).reverse

/-- `c.split(",", 1)[1]`: everything after the first comma. -/
def afterFirstComma (cs : List Char) : List Char :=
  (cs.dropWhile (fun ch => !(ch == ','))).tail

/-- `shorten_label` from ui.py. -/
def shorten_label (c : String) : String :=
  if ',' ∈ c.data then String.mk (stripList (afterFirstComma c.data)) else c

theorem dropWhile_until_comma : ∀ (pre post : List Char), ',' ∉ pre →
    (pre ++ ',' :: post).dropWhile (fun ch => !(ch == ',')) = ',' :: post
  | [], post, _ => by simp [List.dropWhile_cons]
  | a :: pre, post, h => by
    have ha : (a == ',') = false :=
      beq_eq_false_iff_ne.mpr (fun hc => h (hc ▸ List.mem_cons_self a pre))
    have hrec := dropWhile_until_comma pre post (fun hc => h (List.mem_cons_of_mem a hc))
    simp [List.dropWhile_cons, ha, hrec]

/-- C8. When the column name splits as `pre ++ "," ++ post` with no comma
in `pre` (so at the first comma), `shorten_label` returns `post` with
surrounding whitespace stripped; without a comma it returns the name
unchanged; in particular the two worked examples of the specification. -/
theorem claim_C8_shorten_label (c : String) :
    (',' ∉ c.data → shorten_label c = c)
    ∧ (∀ pre post : List Char, c.data = pre ++ ',' :: post → ',' ∉ pre →
        shorten_label c = String.mk (stripList post))
    ∧ shorten_label "Apprentices, 2023_Q4" = "2023_Q4"
    ∧ shorten_label "2023_Q4" = "2023_Q4" := by
  refine ⟨fun h => ?_, fun pre post hdec hpre => ?_, by decide, by decide⟩
  · simp [shorten_label, h]
  · have hmem : ',' ∈ c.data := by
      rw [hdec]
      simp
    rw [shorten_label, if_pos hmem, afterFirstComma, hdec,
      dropWhile_until_comma pre post hpre, List.tail_cons]

/-- Witness for C8: the decomposition rule applied to the concrete name
`"Apprentices, 2023_Q4"` at its first comma. -/
theorem claim_C8_shorten_label_witness :
    shorten_label "Apprentices, 2023_Q4"
      = String.mk (stripList (' ' :: "2023_Q4".data)) := by
  have h := (claim_C8_shorten_label "Apprentices, 2023_Q4").2.1
    "Apprentices".data (' ' :: "2023_Q4".data) (by decide) (by decide)
  exact h

/-! ### Claim C4: the export metadata record

run_app writes the metadata sheet from an ordered dict whose
`Qualifications` entry is `", ".join(quals) if quals else "None"`. -/

/-- `", ".join(l)`. -/
def joinComma (l : List String) : String := String.intercalate ", " l

/-- The ordered metadata record written to the `Metadata` sheet. -/
def buildMetadata (source status : String) (tps quals : List String)
    (hasYears : Bool) (startYear endYear : Nat) : List (String × String) :=
  [("Source", source),
   ("Training Contract Status", status),
   ("Training Packages", if tps.isEmpty then "None" else joinComma tps),
   ("Qualifications", if quals.isEmpty then "None" else joinComma quals),
   ("Years", if hasYears then toString startYear ++ " to " ++ toString endYear
             else "None")]

/-- Modelled from the spec: the qualifications entry as claim C4 states it
— comma-joined when qualifications are selected, `"All aligned
qualifications"` when packages are selected but qualifications are not,
`"None"` when neither is selected. -/
def qualificationsEntryClaim (tps quals : List String) : String :=
  if ¬ quals.isEmpty then joinComma quals
  else if ¬ tps.isEmpty then "All aligned qualifications"
  else "None"

/-- C4 fails as stated: with a package selected and no qualification
selected, the code writes `"None"`, not `"All aligned qualifications"`. -/
theorem claim_C4_counterexample :
    (buildMetadata "src" "Completions" ["Electrotechnology"] [] true 2020 2023).lookup
        "Qualifications" = some "None"
    ∧ qualificationsEntryClaim ["Electrotechnology"] [] = "All aligned qualifications"
    ∧ ("None" : String) ≠ "All aligned qualifications" := by
  decide

/-- C4 amended. The qualifications entry of the metadata record is the
comma-joined selected qualifications when some are selected and `"None"`
when none are selected, regardless of the package selection. -/
theorem claim_C4_metadata (source status : String) (tps quals : List String)
    (hasYears : Bool) (startYear endYear : Nat) :
    (quals = [] →
      (buildMetadata source status tps quals hasYears startYear endYear).lookup
          "Qualifications" = some "None")
    ∧ (quals ≠ [] →
      (buildMetadata source status tps quals hasYears startYear endYear).lookup
          "Qualifications" = some (joinComma quals)) := by
  constructor
  · intro h
    subst h
    simp [buildMetadata, List.lookup]
  · intro h
    cases quals with
    | nil => exact absurd rfl h
    | cons a l => simp [buildMetadata, List.lookup]

/-- Witness for the amended C4: both branches at concrete selections. -/
theorem claim_C4_metadata_witness :
    (buildMetadata "s" "st" ["A"] [] true 2020 2023).lookup "Qualifications"
        = some "None"
    ∧ (buildMetadata "s" "st" ["A"] ["Cert II", "Cert III"] true 2020 2023).lookup
        "Qualifications" = some "Cert II, Cert III" := by
  refine ⟨(claim_C4_metadata "s" "st" ["A"] [] true 2020 2023).1 rfl, ?_⟩
  have h := (claim_C4_metadata "s" "st" ["A"] ["Cert II", "Cert III"] true 2020 2023).2
    (by decide)
  rw [h]
  decide

end Vettoo
